import Mathlib

/-!
# Conformer collation and per-molecule energy report pipeline

Shallow embedding of the orchestration logic of
`examples/conformer_energies/conformer_energies.ipynb`:

* the conformer collation loop that merges adjacent `Molecule` records that
  compare equal (`molecule == molecules[-1]`) into multi-conformer records;
* the per-molecule report loop that, for each conformer, loads positions into
  the OpenMM simulation, queries the initial potential energy, minimizes,
  queries the minimized state, computes an RMSD via an external aligner,
  writes one minimized-structure SDF file per conformer and one CSV file per
  molecule.

External collaborators (the energy function, the minimizer, the RMSD
alignment) are modelled as an injected oracle `SimOracle`; scalars are
rationals.  File writes and calls on the simulation handle are recorded as
explicit events so that counting and ordering properties can be stated.
-/

namespace ConformerEnergies

/-- One 3D geometry of the molecule: an ordered list of per-atom coordinates
(x, y, z), matching the parent record's atom ordering. -/
abbrev Conformer := List (ℚ × ℚ × ℚ)

/-- A molecule record as produced by the file loader: an abstract chemical
graph identity (atoms, bonds, connectivity — the data `Molecule.__eq__`
compares), the declared name, the derived hill formula (computed externally
by `Topology._networkx_to_hill_formula`), and the ordered conformer list. -/
structure MoleculeRecord where
  graph : Nat
  name : String
  hillFormula : String
  conformers : List Conformer
deriving DecidableEq, Repr

/-- Structural equality of two molecule records, as tested by
`molecule == molecules[-1]` in the collation loop: it compares the chemical
graphs, not the names or the conformers. -/
def molEq (a b : MoleculeRecord) : Prop := a.graph = b.graph

instance (a b : MoleculeRecord) : Decidable (molEq a b) :=
  inferInstanceAs (Decidable (a.graph = b.graph))

/-- `molecules[-1].add_conformer(conformer)` applied over all of `m`'s
conformers: append them, in order, to the record `r`. -/
def addConformers (r : MoleculeRecord) (cs : List Conformer) : MoleculeRecord :=
  { r with conformers := r.conformers ++ cs }

/-- The body of the collation loop.  `cur` is `molecules[-1]`; each further
input record is merged into `cur` when structurally equal to it, and
otherwise starts a new output record. -/
def collateLoop (cur : MoleculeRecord) : List MoleculeRecord → List MoleculeRecord
  | [] => [cur]
  | m :: rest =>
    if molEq m cur then collateLoop (addConformers cur m.conformers) rest
    else cur :: collateLoop m rest

/-- The conformer collator:
`molecules = [loaded_molecules[0]]` followed by the merge loop over
`loaded_molecules[1:]`.  On an empty input list, `loaded_molecules[0]`
raises `IndexError`, modelled as `none`. -/
def collate : List MoleculeRecord → Option (List MoleculeRecord)
  | [] => none
  | m :: rest => some (collateLoop m rest)

/-- The result of `Molecule.from_file`: either a single molecule or a list
of molecules. -/
inductive LoaderResult where
  | single (m : MoleculeRecord)
  | many (ms : List MoleculeRecord)

/-- The cast guarded by `if type(loaded_molecules) is not list`: wrap a
single loaded molecule into a one-element list, keep a list as is. -/
def LoaderResult.asList : LoaderResult → List MoleculeRecord
  | .single m => [m]
  | .many ms => ms

/-- Total number of conformers across a list of records, as computed by
`sum([mol.n_conformers for mol in molecules])`. -/
def totalConformers (ms : List MoleculeRecord) : Nat :=
  (ms.map (fun m => m.conformers.length)).sum

/-- All conformers of a record list, in record order. -/
def allConformers (ms : List MoleculeRecord) : List Conformer :=
  ms.flatMap (fun m => m.conformers)

/-- The sequence of distinct values in a list, each at its first
occurrence, in order of first appearance.  `seen` accumulates the values
already emitted. -/
def firstOccsAux (seen : List Nat) : List Nat → List Nat
  | [] => []
  | x :: xs =>
    if x ∈ seen then firstOccsAux seen xs else x :: firstOccsAux (x :: seen) xs

/-- Order of first appearance of each distinct value in a list. -/
def firstOccs (l : List Nat) : List Nat := firstOccsAux [] l

/-- Collapse adjacent duplicates of a list, given its head `x`: the shape of
the identity sequence the collation loop produces. -/
def collapseAdj (x : Nat) : List Nat → List Nat
  | [] => [x]
  | y :: ys => if y = x then collapseAdj x ys else x :: collapseAdj y ys

/-! ## Collator lemmas -/

theorem firstOccsAux_cons_mem {x : Nat} {seen : List Nat} (xs : List Nat)
    (hs : x ∈ seen) : firstOccsAux seen (x :: xs) = firstOccsAux seen xs := by
  simp [firstOccsAux, hs]

theorem firstOccsAux_cons_not_mem {x : Nat} {seen : List Nat} (xs : List Nat)
    (hs : x ∉ seen) :
    firstOccsAux seen (x :: xs) = x :: firstOccsAux (x :: seen) xs := by
  simp [firstOccsAux, hs]

theorem collateLoop_allConformers (rest : List MoleculeRecord) :
    ∀ cur, allConformers (collateLoop cur rest)
      = cur.conformers ++ allConformers rest := by
  induction rest with
  | nil => intro cur; simp [collateLoop, allConformers]
  | cons m rest ih =>
    intro cur
    by_cases h : molEq m cur
    · simp only [collateLoop, if_pos h]
      rw [ih (addConformers cur m.conformers)]
      simp [addConformers, allConformers, List.append_assoc]
    · simp only [collateLoop, if_neg h, allConformers, List.flatMap_cons]
      have hm := ih m
      simp only [allConformers] at hm
      rw [hm]

theorem collateLoop_graphs (rest : List MoleculeRecord) :
    ∀ cur, (collateLoop cur rest).map (fun r => r.graph)
      = collapseAdj cur.graph (rest.map (fun r => r.graph)) := by
  induction rest with
  | nil => intro cur; simp [collateLoop, collapseAdj]
  | cons m rest ih =>
    intro cur
    by_cases h : molEq m cur
    · have hg : m.graph = cur.graph := h
      simp only [collateLoop, if_pos h, List.map_cons, collapseAdj, hg, if_pos rfl]
      have := ih (addConformers cur m.conformers)
      simpa [addConformers] using this
    · have hg : ¬ m.graph = cur.graph := h
      simp only [collateLoop, if_neg h, List.map_cons, collapseAdj, if_neg hg]
      simp [ih]

theorem firstOccsAux_collapseAdj (ys : List Nat) :
    ∀ x seen, firstOccsAux seen (collapseAdj x ys) = firstOccsAux seen (x :: ys) := by
  induction ys with
  | nil => intro x seen; rfl
  | cons y ys ih =>
    intro x seen
    by_cases h : y = x
    · subst h
      have hc : collapseAdj y (y :: ys) = collapseAdj y ys := by simp [collapseAdj]
      rw [hc, ih y seen]
      by_cases hs : y ∈ seen
      · rw [firstOccsAux_cons_mem _ hs, firstOccsAux_cons_mem _ hs,
          firstOccsAux_cons_mem _ hs]
      · rw [firstOccsAux_cons_not_mem _ hs, firstOccsAux_cons_not_mem _ hs,
          firstOccsAux_cons_mem _ (List.mem_cons_self y seen)]
    · simp only [collapseAdj, if_neg h]
      by_cases hs : x ∈ seen
      · rw [firstOccsAux_cons_mem _ hs, firstOccsAux_cons_mem _ hs, ih y seen]
      · rw [firstOccsAux_cons_not_mem _ hs, firstOccsAux_cons_not_mem _ hs,
          ih y (x :: seen)]

/-! ## Report generator model -/

/-- The calls the per-conformer loop makes on the OpenMM simulation handle,
in the order in which the loop makes them:
`simulation.context.setPositions(conformer)`,
`simulation.context.getState(getEnergy=True).getPotentialEnergy()`,
`simulation.minimizeEnergy()`,
`simulation.context.getState(getEnergy=True, getPositions=True)`. -/
inductive SimOp where
  | setPositions (c : Conformer)
  | getStateEnergy
  | minimizeEnergy
  | getStateEnergyPositions
deriving DecidableEq, Repr

/-- One report row for one conformer: 1-based index, potential energy before
minimization, potential energy after minimization, RMSD between the initial
and the minimized geometry. -/
structure EnergyRow where
  index : Nat
  initialPE : ℚ
  minimizedPE : ℚ
  rmsd : ℚ
deriving DecidableEq, Repr

/-- Content of a file written by the report loop: an SDF structure file
carrying the conformers of the written molecule copy, or the CSV report
carrying the exact strings passed to the `of.write` calls (one per line,
each already ending in a newline). -/
inductive FileContent where
  | sdf (conformers : List Conformer)
  | csv (lineWrites : List String)
deriving DecidableEq, Repr

/-- `true` exactly for SDF structure-file contents. -/
def FileContent.isSdf : FileContent → Bool
  | .sdf _ => true
  | .csv _ => false

/-- A file written by the report loop: target path and content.  Prior
content at the path is overwritten. -/
structure FileWrite where
  path : String
  content : FileContent
deriving DecidableEq, Repr

/-- The external numerical collaborators, injected as deterministic
functions: the force-field potential energy of a geometry, the effect of
`simulation.minimizeEnergy()` on the position state, and the RMSD that
`rdMolAlign.AlignMolConformers` reports between two geometries. -/
structure SimOracle where
  energy : Conformer → ℚ
  minimize : Conformer → Conformer
  rmsd : Conformer → Conformer → ℚ

/-- Zero-pad a natural number below 1000 to three digits, for the fractional
part of fixed-point formatting. -/
def pad3 (k : Nat) : String :=
  if k < 10 then "00" ++ toString k
  else if k < 100 then "0" ++ toString k
  else toString k

/-- Fixed-point formatting with three decimal places, the model of the
`f-string` format spec `:.3f` used for energies and RMSD values. -/
def fmt3 (q : ℚ) : String :=
  let n : Int := round (q * 1000)
  let a : Nat := n.natAbs
  (if n < 0 then "-" else "") ++ toString (a / 1000) ++ "." ++ pad3 (a % 1000)

/-- The fixed CSV header row,
`['Conformer','Initial PE (kcal/mol)','Minimized PE (kcal/mol)','RMS between initial and minimized conformer (Angstrom)']`. -/
def headerRow : List String :=
  ["Conformer", "Initial PE (kcal/mol)", "Minimized PE (kcal/mol)",
    "RMS between initial and minimized conformer (Angstrom)"]

/-- The mutable state threaded through one molecule's report loop:
the collated record itself (the loop mutates its `name`), the working copy
`mol_copy`, the simulation handle's position state, and the accumulated
simulation-call trace, energy rows, CSV string rows (`output`), and file
writes. -/
structure ReportState where
  molecule : MoleculeRecord
  molCopy : MoleculeRecord
  simPos : Option Conformer
  trace : List SimOp
  rows : List EnergyRow
  output : List (List String)
  files : List FileWrite
deriving Repr

/-- One iteration of the per-conformer loop, for the conformer at 0-based
index `i`.  Faithful to the body: set positions, query initial energy,
minimize, query minimized state, rebuild `mol_copy`'s conformer list as
`[conformer, min_coords]` for the RMSD alignment, then as `[min_coords]`
for the structure-file write, write
`{name}_conf{i+1}_minimized.sdf`, and append the CSV row of four
`.3f`-formatted fields. -/
def processConformer (O : SimOracle) (st : ReportState) (i : Nat)
    (conformer : Conformer) : ReportState :=
  let origPotential := O.energy conformer
  let minCoords := O.minimize conformer
  let minPotential := O.energy minCoords
  let minimizationRms := O.rmsd conformer minCoords
  let name := st.molecule.name
  { st with
    molCopy := { st.molCopy with conformers := [minCoords] }
    simPos := some minCoords
    trace := st.trace ++ [SimOp.setPositions conformer, SimOp.getStateEnergy,
      SimOp.minimizeEnergy, SimOp.getStateEnergyPositions]
    rows := st.rows ++ [⟨i + 1, origPotential, minPotential, minimizationRms⟩]
    output := st.output ++ [[toString (i + 1), fmt3 origPotential,
      fmt3 minPotential, fmt3 minimizationRms]]
    files := st.files ++ [⟨name ++ "_conf" ++ toString (i + 1) ++
      "_minimized.sdf", FileContent.sdf [minCoords]⟩] }

/-- The effective molecule name: the declared name, or, when that is the
empty string, the derived hill formula
(`molecule.name = Topology._networkx_to_hill_formula(...)`). -/
def effName (m : MoleculeRecord) : String :=
  if m.name = "" then m.hillFormula else m.name

/-- The per-molecule report generator: assign the hill formula when the
declared name is empty, make the working copy `mol_copy`, run the
per-conformer loop over `enumerate(molecule.conformers)`, then write
`{molecule.name}.csv` with one `of.write(','.join(line)+'\n')` call per
accumulated output row. -/
def generateReport (O : SimOracle) (m : MoleculeRecord) : ReportState :=
  let named := { m with name := effName m }
  let init : ReportState :=
    { molecule := named, molCopy := named, simPos := none, trace := [],
      rows := [], output := [headerRow], files := [] }
  let st := named.conformers.enum.foldl
    (fun s p => processConformer O s p.1 p.2) init
  { st with
    files := st.files ++ [⟨named.name ++ ".csv",
      FileContent.csv (st.output.map
        (fun line => String.intercalate "," line ++ "\n"))⟩] }

/-- The SDF structure-file writes of a report run, in write order. -/
def sdfWrites (st : ReportState) : List FileWrite :=
  st.files.filter (fun f => f.content.isSdf)

/-- The CSV writes of a report run, in write order. -/
def csvWrites (st : ReportState) : List FileWrite :=
  st.files.filter (fun f => !f.content.isSdf)

/-- The energy row the loop body produces for the 0-based indexed conformer
`p`. -/
def rowOf (O : SimOracle) (p : Nat × Conformer) : EnergyRow :=
  ⟨p.1 + 1, O.energy p.2, O.energy (O.minimize p.2),
    O.rmsd p.2 (O.minimize p.2)⟩

/-- The CSV string row the loop body appends to `output` for the 0-based
indexed conformer `p`. -/
def csvRowOf (O : SimOracle) (p : Nat × Conformer) : List String :=
  [toString (p.1 + 1), fmt3 (O.energy p.2), fmt3 (O.energy (O.minimize p.2)),
    fmt3 (O.rmsd p.2 (O.minimize p.2))]

/-- The structure-file write the loop body performs for the 0-based indexed
conformer `p` of the molecule named `name`. -/
def sdfWriteOf (O : SimOracle) (name : String) (p : Nat × Conformer) :
    FileWrite :=
  ⟨name ++ "_conf" ++ toString (p.1 + 1) ++ "_minimized.sdf",
    FileContent.sdf [O.minimize p.2]⟩

/-- The four simulation-handle calls one loop iteration makes, in program
order. -/
def conformerOps (c : Conformer) : List SimOp :=
  [SimOp.setPositions c, SimOp.getStateEnergy, SimOp.minimizeEnergy,
    SimOp.getStateEnergyPositions]

/-- The strings passed to the CSV `of.write` calls for molecule `m`: header
line first, then one line per conformer, each line the comma-join of its
fields followed by a newline. -/
def csvLinesOf (O : SimOracle) (m : MoleculeRecord) : List String :=
  (headerRow :: m.conformers.enum.map (csvRowOf O)).map
    (fun line => String.intercalate "," line ++ "\n")

/-! ## Fold characterization of the per-conformer loop -/

theorem fold_molecule (O : SimOracle) (ps : List (Nat × Conformer)) :
    ∀ st : ReportState,
      (ps.foldl (fun s p => processConformer O s p.1 p.2) st).molecule
        = st.molecule := by
  induction ps with
  | nil => intro st; rfl
  | cons p ps ih => intro st; rw [List.foldl_cons, ih]; rfl

theorem fold_trace (O : SimOracle) (ps : List (Nat × Conformer)) :
    ∀ st : ReportState,
      (ps.foldl (fun s p => processConformer O s p.1 p.2) st).trace
        = st.trace ++ ps.flatMap (fun p => conformerOps p.2) := by
  induction ps with
  | nil => intro st; simp
  | cons p ps ih =>
    intro st
    rw [List.foldl_cons, ih]
    simp [processConformer, conformerOps, List.append_assoc]

theorem fold_rows (O : SimOracle) (ps : List (Nat × Conformer)) :
    ∀ st : ReportState,
      (ps.foldl (fun s p => processConformer O s p.1 p.2) st).rows
        = st.rows ++ ps.map (rowOf O) := by
  induction ps with
  | nil => intro st; simp
  | cons p ps ih =>
    intro st
    rw [List.foldl_cons, ih]
    simp [processConformer, rowOf, List.append_assoc]

theorem fold_output (O : SimOracle) (ps : List (Nat × Conformer)) :
    ∀ st : ReportState,
      (ps.foldl (fun s p => processConformer O s p.1 p.2) st).output
        = st.output ++ ps.map (csvRowOf O) := by
  induction ps with
  | nil => intro st; simp
  | cons p ps ih =>
    intro st
    rw [List.foldl_cons, ih]
    simp [processConformer, csvRowOf, List.append_assoc]

theorem fold_files (O : SimOracle) (ps : List (Nat × Conformer)) :
    ∀ st : ReportState,
      (ps.foldl (fun s p => processConformer O s p.1 p.2) st).files
        = st.files ++ ps.map (sdfWriteOf O st.molecule.name) := by
  induction ps with
  | nil => intro st; simp
  | cons p ps ih =>
    intro st
    rw [List.foldl_cons, ih]
    simp [processConformer, sdfWriteOf, List.append_assoc]

/-! ## Characterization of one report run -/

theorem gen_molecule (O : SimOracle) (m : MoleculeRecord) :
    (generateReport O m).molecule = { m with name := effName m } := by
  simp [generateReport, fold_molecule]

theorem gen_trace (O : SimOracle) (m : MoleculeRecord) :
    (generateReport O m).trace = m.conformers.flatMap conformerOps := by
  have h : m.conformers.enum.flatMap (fun p => conformerOps p.2)
      = m.conformers.flatMap conformerOps := by
    calc m.conformers.enum.flatMap (fun p => conformerOps p.2)
        = (m.conformers.enum.map Prod.snd).flatMap conformerOps := by
          rw [List.flatMap_map]
      _ = m.conformers.flatMap conformerOps := by rw [List.enum_map_snd]
  simp [generateReport, fold_trace, h]

theorem gen_rows (O : SimOracle) (m : MoleculeRecord) :
    (generateReport O m).rows = m.conformers.enum.map (rowOf O) := by
  simp [generateReport, fold_rows]

theorem gen_output (O : SimOracle) (m : MoleculeRecord) :
    (generateReport O m).output
      = headerRow :: m.conformers.enum.map (csvRowOf O) := by
  simp [generateReport, fold_output]

theorem gen_files (O : SimOracle) (m : MoleculeRecord) :
    (generateReport O m).files
      = m.conformers.enum.map (sdfWriteOf O (effName m))
        ++ [⟨effName m ++ ".csv", FileContent.csv (csvLinesOf O m)⟩] := by
  simp [generateReport, fold_files, fold_molecule, fold_output, csvLinesOf,
    gen_output]

theorem sdfWrites_gen (O : SimOracle) (m : MoleculeRecord) :
    sdfWrites (generateReport O m)
      = m.conformers.enum.map (sdfWriteOf O (effName m)) := by
  rw [sdfWrites, gen_files, List.filter_append]
  have h1 : List.filter (fun f => f.content.isSdf)
      (m.conformers.enum.map (sdfWriteOf O (effName m)))
      = m.conformers.enum.map (sdfWriteOf O (effName m)) :=
    List.filter_eq_self.mpr (fun a ha => by
      obtain ⟨p, hp, hpa⟩ := List.mem_map.mp ha
      rw [← hpa]; rfl)
  rw [h1]
  simp [FileContent.isSdf]

theorem csvWrites_gen (O : SimOracle) (m : MoleculeRecord) :
    csvWrites (generateReport O m)
      = [⟨effName m ++ ".csv", FileContent.csv (csvLinesOf O m)⟩] := by
  rw [csvWrites, gen_files, List.filter_append]
  have h1 : List.filter (fun f => !f.content.isSdf)
      (m.conformers.enum.map (sdfWriteOf O (effName m))) = [] := by
    rw [List.filter_eq_nil_iff]
    intro a ha
    obtain ⟨p, hp, hpa⟩ := List.mem_map.mp ha
    rw [← hpa]
    simp [sdfWriteOf, FileContent.isSdf]
  rw [h1]
  simp [FileContent.isSdf]

/-! ## Auxiliary counting and string lemmas -/

theorem enum_map_snd_comp {α β : Type} (l : List α) (g : α → β) :
    l.enum.map (fun p => g p.2) = l.map g := by
  calc l.enum.map (fun p => g p.2)
      = (l.enum.map Prod.snd).map g := by rw [List.map_map]; rfl
    _ = l.map g := by rw [List.enum_map_snd]

theorem enum_map_fst_comp {α β : Type} (l : List α) (g : Nat → β) :
    l.enum.map (fun p => g p.1) = (List.range l.length).map g := by
  calc l.enum.map (fun p => g p.1)
      = (l.enum.map Prod.fst).map g := by rw [List.map_map]; rfl
    _ = (List.range l.length).map g := by rw [List.enum_map_fst]

theorem totalConformers_eq (ms : List MoleculeRecord) :
    totalConformers ms = (allConformers ms).length := by
  induction ms with
  | nil => rfl
  | cons m ms ih =>
    simp only [totalConformers, allConformers, List.flatMap_cons, List.map_cons,
      List.sum_cons, List.length_append] at *
    omega

theorem allConformers_length_single (input : List MoleculeRecord)
    (h : ∀ r ∈ input, r.conformers.length = 1) :
    (allConformers input).length = input.length := by
  induction input with
  | nil => rfl
  | cons m ms ih =>
    have hm := h m (List.mem_cons_self m ms)
    have hms := ih (fun r hr => h r (List.mem_cons_of_mem m hr))
    simp only [allConformers, List.flatMap_cons, List.length_append,
      List.length_cons] at *
    omega

theorem append_ne_empty_right (a b : String) (h : b ≠ "") : a ++ b ≠ "" := by
  intro hc
  apply h
  have hlen := congrArg String.length hc
  rw [String.length_append] at hlen
  have hb : b.length = 0 := by
    have : String.length "" = 0 := rfl
    omega
  cases b with
  | mk data =>
    cases data with
    | nil => rfl
    | cons c cs => simp [String.length] at hb

/-! ## Concrete fixtures -/

/-- A one-atom geometry at the origin. -/
def confA1 : Conformer := [(0, 0, 0)]

/-- A second one-atom geometry of the same molecule. -/
def confA2 : Conformer := [(1, 0, 0)]

/-- A geometry of a different molecule. -/
def confB1 : Conformer := [(2, 0, 0)]

/-- First loaded record of molecule A (one conformer). -/
def recA1 : MoleculeRecord := ⟨0, "A", "CH4", [confA1]⟩

/-- Second loaded record of molecule A: same chemical graph, another
conformer. -/
def recA2 : MoleculeRecord := ⟨0, "A", "CH4", [confA2]⟩

/-- A record of a structurally different molecule B. -/
def recB1 : MoleculeRecord := ⟨1, "B", "H2O", [confB1]⟩

/-- A record whose declared name is the empty string. -/
def recEmptyName : MoleculeRecord := ⟨0, "", "CH4", [confA1]⟩

/-- A concrete deterministic oracle for evaluating the pipeline on the
fixtures: zero energies, identity minimizer, zero RMSD. -/
def oracle0 : SimOracle := ⟨fun _ => 0, fun c => c, fun _ _ => 0⟩

/-! ## Claims -/

/-- C1: for every input sequence of single-conformer records on which the
collator succeeds, the output carries exactly the input's conformers (none
dropped or duplicated — in fact the concatenated conformer sequence is
preserved, so the total count equals the number of input records), and the
order of first appearance of each distinct molecule is preserved. -/
theorem claim_C1 (input out : List MoleculeRecord)
    (hsingle : ∀ r ∈ input, r.conformers.length = 1)
    (hout : collate input = some out) :
    allConformers out = allConformers input ∧
    totalConformers out = input.length ∧
    firstOccs (out.map (fun r => r.graph))
      = firstOccs (input.map (fun r => r.graph)) := by
  cases input with
  | nil => simp [collate] at hout
  | cons m rest =>
    have hout' : collateLoop m rest = out := by
      simpa [collate] using hout
    subst hout'
    refine ⟨?_, ?_, ?_⟩
    · rw [collateLoop_allConformers]
      simp [allConformers]
    · rw [totalConformers_eq, collateLoop_allConformers]
      have h1 := allConformers_length_single (m :: rest) hsingle
      simp only [allConformers, List.flatMap_cons, List.length_cons] at h1 ⊢
      omega
    · rw [collateLoop_graphs]
      simp only [List.map_cons, firstOccs]
      exact firstOccsAux_collapseAdj _ _ _

/-- Witness for C1 on the concrete input `[A1, A2, B1]`. -/
theorem claim_C1_witness :
    (∀ r ∈ [recA1, recA2, recB1], r.conformers.length = 1) ∧
    collate [recA1, recA2, recB1]
      = some [{ recA1 with conformers := [confA1, confA2] }, recB1] ∧
    (allConformers [{ recA1 with conformers := [confA1, confA2] }, recB1]
        = allConformers [recA1, recA2, recB1] ∧
      totalConformers [{ recA1 with conformers := [confA1, confA2] }, recB1]
        = [recA1, recA2, recB1].length ∧
      firstOccs (([{ recA1 with conformers := [confA1, confA2] },
          recB1]).map (fun r => r.graph))
        = firstOccs (([recA1, recA2, recB1]).map (fun r => r.graph))) :=
  ⟨by decide, rfl, claim_C1 [recA1, recA2, recB1] _ (by decide) rfl⟩

/-- C2: the collator is the adjacency-only left-to-right merge: on
`[A1, A2, B1]` with `A1` structurally equal to `A2` it yields exactly two
records, `A` carrying both conformers followed by `B1`; on `[A1, B1, A2]`
it yields the three records unchanged (no global deduplication). -/
theorem claim_C2 :
    collate [recA1, recA2, recB1]
      = some [{ recA1 with conformers := [confA1, confA2] }, recB1] ∧
    collate [recA1, recB1, recA2] = some [recA1, recB1, recA2] :=
  ⟨rfl, rfl⟩

/-- C3 (counterexample): on the empty input the collator does not return an
empty output sequence; `molecules = [loaded_molecules[0]]` fails with
`IndexError`, modelled by `none`. -/
theorem claim_C3_counterexample :
    ¬ collate ([] : List MoleculeRecord) = some [] := by
  decide

/-- C3 (amended): on the empty input sequence the collator raises an index
error (modelled as `none`) instead of returning an empty sequence. -/
theorem claim_C3 : collate ([] : List MoleculeRecord) = none := rfl

/-- C8: a single loaded molecule is wrapped into a one-element list, so it
is collated exactly like the one-element list and yields that one record
as the single output record. -/
theorem claim_C8 (m : MoleculeRecord) :
    LoaderResult.asList (LoaderResult.single m) = [m] ∧
    collate (LoaderResult.asList (LoaderResult.single m)) = collate [m] ∧
    collate (LoaderResult.asList (LoaderResult.single m)) = some [m] :=
  ⟨rfl, rfl, rfl⟩

/-- C4: for a molecule with `N ≥ 1` conformers the report run produces
exactly `N` energy rows with 1-based indices `1..N` in order, writes
exactly `N` structure files and exactly one CSV whose content is the
`output` rows comma-joined one per line, and `output` holds the header
plus `N` data rows of exactly 4 fields each. -/
theorem claim_C4 (O : SimOracle) (m : MoleculeRecord) (N : Nat)
    (hN : m.conformers.length = N) (hpos : 1 ≤ N) :
    (generateReport O m).rows.length = N ∧
    (generateReport O m).rows.map (fun r => r.index)
      = (List.range N).map (fun i => i + 1) ∧
    (sdfWrites (generateReport O m)).length = N ∧
    csvWrites (generateReport O m)
      = [⟨effName m ++ ".csv", FileContent.csv
          ((generateReport O m).output.map
            (fun line => String.intercalate "," line ++ "\n"))⟩] ∧
    (generateReport O m).output.length = N + 1 ∧
    (generateReport O m).output.head? = some headerRow ∧
    ∀ row ∈ (generateReport O m).output.tail, row.length = 4 := by
  refine ⟨?_, ?_, ?_, ?_, ?_, ?_, ?_⟩
  · rw [gen_rows]; simp [List.enum_length, hN]
  · rw [gen_rows, List.map_map]
    show m.conformers.enum.map (fun p => p.1 + 1) = _
    exact (enum_map_fst_comp m.conformers (fun i => i + 1)).trans (by rw [hN])
  · rw [sdfWrites_gen]; simp [List.enum_length, hN]
  · rw [csvWrites_gen, gen_output]; rfl
  · rw [gen_output]; simp [List.enum_length, hN]
  · rw [gen_output]; rfl
  · rw [gen_output]
    intro row hrow
    simp only [List.tail_cons] at hrow
    obtain ⟨p, hp, hpr⟩ := List.mem_map.mp hrow
    rw [← hpr]; rfl

/-- Witness for C4 on a concrete one-conformer molecule. -/
theorem claim_C4_witness :
    (recB1.conformers.length = 1 ∧ 1 ≤ 1) ∧
    ((generateReport oracle0 recB1).rows.length = 1 ∧
      (generateReport oracle0 recB1).rows.map (fun r => r.index)
        = (List.range 1).map (fun i => i + 1) ∧
      (sdfWrites (generateReport oracle0 recB1)).length = 1 ∧
      csvWrites (generateReport oracle0 recB1)
        = [⟨effName recB1 ++ ".csv", FileContent.csv
            ((generateReport oracle0 recB1).output.map
              (fun line => String.intercalate "," line ++ "\n"))⟩] ∧
      (generateReport oracle0 recB1).output.length = 1 + 1 ∧
      (generateReport oracle0 recB1).output.head? = some headerRow ∧
      ∀ row ∈ (generateReport oracle0 recB1).output.tail, row.length = 4) :=
  ⟨⟨rfl, le_refl 1⟩, claim_C4 oracle0 recB1 1 rfl (le_refl 1)⟩

/-- C5: for each conformer, the calls on the simulation handle happen in
program order: positions loaded, initial energy queried, minimizer
invoked, minimized state (energy and positions) queried — conformer after
conformer with no interleaving. -/
theorem claim_C5 (O : SimOracle) (m : MoleculeRecord) :
    (generateReport O m).trace = m.conformers.flatMap (fun c =>
      [SimOp.setPositions c, SimOp.getStateEnergy, SimOp.minimizeEnergy,
        SimOp.getStateEnergyPositions]) := by
  rw [gen_trace]; rfl

/-- C6: when the hill formula is non-empty (as the external formula
derivation guarantees for a molecule with atoms), the effective name —
declared name, or hill formula when the declared name is empty — is
non-empty, is assigned to the record before any write, and every output
path uses it: `<name>_conf<i>_minimized.sdf` with 1-based index for the
structure files, `<name>.csv` for the report; all written paths are
non-empty. -/
theorem claim_C6 (O : SimOracle) (m : MoleculeRecord)
    (hHill : m.hillFormula ≠ "") :
    effName m ≠ "" ∧
    (generateReport O m).molecule.name = effName m ∧
    sdfWrites (generateReport O m)
      = m.conformers.enum.map (fun p =>
          ⟨effName m ++ "_conf" ++ toString (p.1 + 1) ++ "_minimized.sdf",
            FileContent.sdf [O.minimize p.2]⟩) ∧
    csvWrites (generateReport O m)
      = [⟨effName m ++ ".csv", FileContent.csv (csvLinesOf O m)⟩] ∧
    ∀ f ∈ (generateReport O m).files, f.path ≠ "" := by
  refine ⟨?_, ?_, ?_, csvWrites_gen O m, ?_⟩
  · unfold effName
    by_cases h : m.name = ""
    · rw [if_pos h]; exact hHill
    · rw [if_neg h]; exact h
  · rw [gen_molecule]
  · rw [sdfWrites_gen]; rfl
  · intro f hf
    rw [gen_files] at hf
    rcases List.mem_append.mp hf with h | h
    · obtain ⟨p, hp, hpf⟩ := List.mem_map.mp h
      rw [← hpf]
      exact append_ne_empty_right _ _ (by decide)
    · simp only [List.mem_singleton] at h
      rw [h]
      exact append_ne_empty_right _ _ (by decide)

/-- Witness for C6 on a concrete molecule with an empty declared name. -/
theorem claim_C6_witness :
    recEmptyName.hillFormula ≠ "" ∧
    (effName recEmptyName ≠ "" ∧
      (generateReport oracle0 recEmptyName).molecule.name
        = effName recEmptyName ∧
      sdfWrites (generateReport oracle0 recEmptyName)
        = recEmptyName.conformers.enum.map (fun p =>
            ⟨effName recEmptyName ++ "_conf" ++ toString (p.1 + 1)
              ++ "_minimized.sdf", FileContent.sdf [oracle0.minimize p.2]⟩) ∧
      csvWrites (generateReport oracle0 recEmptyName)
        = [⟨effName recEmptyName ++ ".csv",
            FileContent.csv (csvLinesOf oracle0 recEmptyName)⟩] ∧
      ∀ f ∈ (generateReport oracle0 recEmptyName).files, f.path ≠ "") :=
  ⟨by decide, claim_C6 oracle0 recEmptyName (by decide)⟩

/-- C7 (counterexample): a collated record with an empty declared name IS
mutated by the report generator — its `name` field is overwritten with the
hill formula — so "no record is mutated after collation" fails. -/
theorem claim_C7_counterexample :
    collate [recEmptyName] = some [recEmptyName] ∧
    (generateReport oracle0 recEmptyName).molecule ≠ recEmptyName := by
  refine ⟨rfl, ?_⟩
  intro hc
  have h1 := gen_molecule oracle0 recEmptyName
  rw [hc] at h1
  have h2 := congrArg MoleculeRecord.name h1
  exact absurd h2 (by decide)

/-- C7 (amended): after collation, the only mutation the report generator
performs on a collated record is assigning the effective name (the hill
formula, when the declared name is empty); in particular the conformer
sequence is never mutated, and a record with a non-empty declared name is
left entirely unchanged. -/
theorem claim_C7 (O : SimOracle) (m : MoleculeRecord) :
    (generateReport O m).molecule = { m with name := effName m } ∧
    (generateReport O m).molecule.conformers = m.conformers := by
  refine ⟨gen_molecule O m, ?_⟩
  rw [gen_molecule]

/-- C9: the structure files, in write order, carry exactly one conformer
each: the minimized geometry of the corresponding input conformer. -/
theorem claim_C9 (O : SimOracle) (m : MoleculeRecord) :
    (sdfWrites (generateReport O m)).map (fun f => f.content)
      = m.conformers.map (fun c => FileContent.sdf [O.minimize c]) := by
  rw [sdfWrites_gen, List.map_map]
  exact enum_map_snd_comp m.conformers (fun c => FileContent.sdf [O.minimize c])

/-- C10: the collated record's conformer sequence (count, order and
coordinates) is identical before and after report generation; all
conformer-set rebuilds happen on the working copy. -/
theorem claim_C10 (O : SimOracle) (m : MoleculeRecord) :
    (generateReport O m).molecule.conformers = m.conformers := by
  rw [gen_molecule]
